import Mathlib

/-!
Shallow embedding of the intent-resolution and task-mutation engine of the
voice to-do application (source: `web-app/app/page.tsx`).

JavaScript strings are modelled as Lean `String`s; the string helpers used by
the fuzzy matcher (`toLowerCase`, `trim`, `split(" ")`, `includes`) are
modelled character-wise over `List Char`.  `Array.prototype.sort` is modelled
by a stable sort over the translated comparator, exactly as the ECMAScript
specification requires of `sort` with a consistent comparator.
`crypto.randomUUID()` is modelled by an explicit `freshId` argument to
`applyIntent`; its uniqueness is an assumption about the environment and
appears as a hypothesis where it matters.
-/

namespace AdiVoiceTodo

/-- `type Priority = "high" | "medium" | "low"` -/
inductive Priority where
  | high
  | medium
  | low
deriving DecidableEq

/-- `type TaskStatus = "pending" | "done"` -/
inductive TaskStatus where
  | pending
  | done
deriving DecidableEq

/-- `type Task = { id; title; scheduledTime?; priority; status }` -/
structure Task where
  id : String
  title : String
  scheduledTime : Option String
  priority : Priority
  status : TaskStatus
deriving DecidableEq

/-- the `mode` field of a `Target`: `"by_index" | "by_match" | "all" | null`
    (the `null` case is the `none` of the surrounding `Option`). -/
inductive Mode where
  | by_index
  | by_match
  | all
deriving DecidableEq

/-- the non-null alternative of `type Target` -/
structure TargetData where
  mode : Option Mode
  index : Option Int
  match_query : Option String
deriving DecidableEq

/-- the `data` payload of an `Intent`: partial field set -/
structure IntentData where
  title : Option String
  scheduledTime : Option String
  priority : Option Priority
  status : Option TaskStatus
deriving DecidableEq

/-- `operation`: the recognized set plus `unknown` for any other string the
    translator may send at runtime (TypeScript does not enforce the union at
    runtime; the engine's `switch` sends such values to its `default` arm). -/
inductive Operation where
  | create
  | delete
  | update
  | filter
  | noop
  | unknown (s : String)
deriving DecidableEq

/-- `type Intent = { operation; target; data }` -/
structure Intent where
  operation : Operation
  target : Option TargetData
  data : IntentData
deriving DecidableEq

/-- `type Filter = { priority?; search? } | null` -/
structure FilterState where
  priority : Option Priority
  search : Option String
deriving DecidableEq

/-! ### Character-level models of the JavaScript string primitives -/

/-- model of `String.prototype.toLowerCase` on a character list -/
def lowerChars (s : List Char) : List Char := s.map Char.toLower

/-- model of `String.prototype.trim`: strip leading and trailing whitespace -/
def trimChars (s : List Char) : List Char :=
  ((s.dropWhile Char.isWhitespace).reverse.dropWhile Char.isWhitespace).reverse

/-- model of `String.prototype.split(" ")`: split at every space character,
    keeping empty pieces (`"a  b".split(" ") = ["a", "", "b"]`). -/
def splitOnSpace : List Char → List (List Char)
  | [] => [[]]
  | c :: cs =>
    if c == ' ' then [] :: splitOnSpace cs
    else
      match splitOnSpace cs with
      | [] => [[c]]
      | w :: ws => (c :: w) :: ws

/-- `w` is a leading run of `t` -/
def charsPrefixOf : List Char → List Char → Bool
  | [], _ => true
  | _ :: _, [] => false
  | c :: cs, d :: ds => c == d && charsPrefixOf cs ds

/-- model of `t.includes(w)`: `w` occurs contiguously inside `t` -/
def charsSubstrOf (w : List Char) : List Char → Bool
  | [] => charsPrefixOf w []
  | t :: ts => charsPrefixOf w (t :: ts) || charsSubstrOf w ts

/-! ### Engine helpers (`page.tsx`, "Helpers" section) -/

/-- `const priorityOrder = { high: 0, medium: 1, low: 2 }` -/
def priorityOrder : Priority → Int
  | .high => 0
  | .medium => 1
  | .low => 2

/-- model of `a.localeCompare(b)` for the fixed-width UTC ISO timestamps the
    engine compares: codepoint-lexicographic comparison reported as a sign -/
def localeCompare (a b : String) : Int :=
  if a < b then -1 else if b < a then 1 else 0

/-- JavaScript truthiness of the optional `scheduledTime` field:
    `undefined` and the empty string are falsy -/
def schedTruthy : Option String → Bool
  | none => false
  | some s => s != ""

/-- the string value read in a truthy branch (`none` never reaches it) -/
def schedVal : Option String → String
  | none => ""
  | some s => s

/-- the comparator passed to `sort` in `sortTasks` -/
def cmpTasks (a b : Task) : Int :=
  let prioDiff := priorityOrder a.priority - priorityOrder b.priority
  if prioDiff != 0 then prioDiff
  else if schedTruthy a.scheduledTime && schedTruthy b.scheduledTime then
    localeCompare (schedVal a.scheduledTime) (schedVal b.scheduledTime)
  else if schedTruthy a.scheduledTime && !schedTruthy b.scheduledTime then -1
  else if !schedTruthy a.scheduledTime && schedTruthy b.scheduledTime then 1
  else 0

/-- the non-strict order induced by the comparator: `cmpTasks a b <= 0` means
    the sort may leave `a` before `b` -/
def taskLE (a b : Task) : Prop := cmpTasks a b ≤ 0

instance : DecidableRel taskLE := fun a b => Int.decLe (cmpTasks a b) 0

/-- `function sortTasks(tasks)`: ECMAScript requires `Array.prototype.sort` to
    be a stable sort consistent with the comparator; the stable-sorted
    permutation is unique, so the structurally recursive stable
    `List.insertionSort` is a faithful model of it. -/
def sortTasks (tasks : List Task) : List Task := List.insertionSort taskLE tasks

/-- `function normalizeIndex(rawIndex, tasks)`: 1-based ordinal to 0-based
    array index, with the first-digit fallback heuristic.  `parseInt(s[0], 10)`
    yields the digit value when `s[0]` is a decimal digit and `NaN` otherwise
    (and every comparison against `NaN` is false). -/
def normalizeIndex (rawIndex : Int) (tasks : List Task) : Option Nat :=
  let n := tasks.length
  if n = 0 then none
  else if 1 ≤ rawIndex ∧ rawIndex ≤ (n : Int) then some (rawIndex - 1).toNat
  else
    let s := toString rawIndex
    if s.length > 1 then
      let c := s.get ⟨0⟩
      if c.isDigit then
        let firstDigit := c.toNat - '0'.toNat
        if 1 ≤ firstDigit ∧ firstDigit ≤ n then some (firstDigit - 1) else none
      else none
    else none

/-- `function matchesTitleFuzzy(title, query)` -/
def matchesTitleFuzzy (title query : String) : Bool :=
  let normalizedTitle := lowerChars title.toList
  let q := trimChars (lowerChars query.toList)
  if q.isEmpty then false
  else
    let words := (splitOnSpace q).filter (fun w => !w.isEmpty)
    words.any (fun w => charsSubstrOf w normalizedTitle)

/-- `function getVisibleTasks(tasks, filter)`: filtered then sorted -/
def getVisibleTasks (tasks : List Task) (filter : Option FilterState) : List Task :=
  let result :=
    match filter with
    | some f =>
      match f.priority with
      | some p => tasks.filter (fun t => t.priority = p)
      | none => tasks
    | none => tasks
  sortTasks result

/-! ### CRUD helpers (`page.tsx`, "CRUD helpers" section) -/

/-- the `applyUpdate` closure inside `updateByTarget`: `data.field ?? t.field`
    merge, patch value winning only when present -/
def applyUpdate (data : IntentData) (t : Task) : Task :=
  { t with
    title := data.title.getD t.title
    scheduledTime :=
      match data.scheduledTime with
      | some s => some s
      | none => t.scheduledTime
    priority := data.priority.getD t.priority
    status := data.status.getD t.status }

/-- `function deleteByTarget(tasks, target)` -/
def deleteByTarget (tasks : List Task) (target : Option TargetData) : List Task :=
  match target with
  | none => tasks
  | some tgt =>
    if tgt.mode = some Mode.by_index ∧ tgt.index.isSome then
      match tgt.index with
      | some raw =>
        match normalizeIndex raw tasks with
        | none => tasks
        | some idx => ((tasks.enum.filter (fun p => !(p.1 = idx))).map Prod.snd)
      | none => tasks
    else if tgt.mode = some Mode.by_match ∧ schedTruthy tgt.match_query then
      let q := (tgt.match_query).getD ""
      if trimChars q.toList = [] then tasks
      else tasks.filter (fun t => !matchesTitleFuzzy t.title q)
    else if tgt.mode = some Mode.all then []
    else tasks

/-- the body of the `tasks.map` with the `changed` flag inside
    `updateByTarget`'s `by_match` branch -/
def updateFirstLoop (data : IntentData) (q : String) : Bool → List Task → List Task
  | _, [] => []
  | changed, t :: ts =>
    if !changed && matchesTitleFuzzy t.title q then
      applyUpdate data t :: updateFirstLoop data q true ts
    else
      t :: updateFirstLoop data q changed ts

/-- `function updateByTarget(tasks, target, data)` -/
def updateByTarget (tasks : List Task) (target : Option TargetData)
    (data : IntentData) : List Task :=
  match target with
  | none => tasks
  | some tgt =>
    if tgt.mode = some Mode.by_index ∧ tgt.index.isSome then
      match tgt.index with
      | some raw =>
        match normalizeIndex raw tasks with
        | none => tasks
        | some idx => tasks.mapIdx (fun i t => if i = idx then applyUpdate data t else t)
      | none => tasks
    else if tgt.mode = some Mode.by_match ∧ schedTruthy tgt.match_query then
      let q := (tgt.match_query).getD ""
      if trimChars q.toList = [] then tasks
      else updateFirstLoop data q false tasks
    else tasks

/-- `function applyIntent(tasks, intent)`; `freshId` models the value of
    `crypto.randomUUID()` for the `create` arm -/
def applyIntent (freshId : String) (tasks : List Task) (intent : Intent) : List Task :=
  match intent.operation with
  | .create =>
    tasks ++ [{ id := freshId
                title := intent.data.title.getD "Untitled task"
                scheduledTime := intent.data.scheduledTime
                priority := intent.data.priority.getD Priority.low
                status := intent.data.status.getD TaskStatus.pending }]
  | .delete => deleteByTarget tasks intent.target
  | .update => updateByTarget tasks intent.target intent.data
  | _ => tasks

/-- `function remapIntentForUI(intent, tasks, filter)` -/
def remapIntentForUI (intent : Intent) (tasks : List Task)
    (filter : Option FilterState) : Intent :=
  match intent.target with
  | none => intent
  | some tgt =>
    match tgt.mode with
    | some Mode.by_index =>
      match tgt.index with
      | none => intent
      | some k =>
        let visible := getVisibleTasks tasks filter
        let uiIndex : Int := k - 1
        if h : uiIndex < 0 ∨ (visible.length : Int) ≤ uiIndex then
          { intent with operation := Operation.noop }
        else
          let taskId := (visible.get ⟨uiIndex.toNat, by omega⟩).id
          match tasks.findIdx? (fun t => t.id = taskId) with
          | none => intent
          | some realIndex =>
            { intent with
              target := some { tgt with index := some ((realIndex : Int) + 1) } }
    | _ => intent

/-- the filtering predicate applied by `getVisibleTasks` -/
def passesFilter (filter : Option FilterState) (t : Task) : Bool :=
  match filter with
  | some f =>
    match f.priority with
    | some p => t.priority = p
    | none => true
  | none => true

/-- the ordering described by the specification: priority ascending in the
    fixed order high < medium < low; within equal priority, scheduled tasks
    precede unscheduled ones and scheduled tasks are ordered by lexicographic
    comparison of their ISO strings -/
def specLE (a b : Task) : Prop :=
  priorityOrder a.priority < priorityOrder b.priority ∨
    (priorityOrder a.priority = priorityOrder b.priority ∧
      match a.scheduledTime, b.scheduledTime with
      | some sa, some sb => sa ≤ sb
      | some _, none => True
      | none, some _ => False
      | none, none => True)

/-- the default store seeded into the page component, used as a concrete
    instantiation below -/
def seededTasks : List Task :=
  [⟨"1", "Fix payment gateway bug", some "2025-11-16T10:00:00Z",
      Priority.high, TaskStatus.pending⟩,
   ⟨"2", "File quarterly compliances", some "2025-11-17T09:00:00Z",
      Priority.medium, TaskStatus.pending⟩,
   ⟨"3", "Clean up analytics dashboard", none, Priority.low, TaskStatus.done⟩]

/-- the view/store divergence scenario of the specification: creation order is
    high, low, medium, so the visible (sorted) order differs from store order -/
def divergenceStore : List Task :=
  [⟨"a", "Task A", none, Priority.high, TaskStatus.pending⟩,
   ⟨"b", "Task B", none, Priority.low, TaskStatus.pending⟩,
   ⟨"c", "Task C", none, Priority.medium, TaskStatus.pending⟩]

/-! ### Order-theoretic properties of the comparator -/

theorem localeCompare_le_zero_iff (a b : String) : localeCompare a b ≤ 0 ↔ a ≤ b := by
  unfold localeCompare
  split_ifs with h1 h2
  · simp [h1.le]
  · simpa using not_le.mpr h2
  · have hab : a = b := le_antisymm (le_of_not_lt h2) (le_of_not_lt h1)
    simp [hab]

theorem localeCompare_eq_zero_iff (a b : String) : localeCompare a b = 0 ↔ a = b := by
  unfold localeCompare
  split_ifs with h1 h2
  · simp [ne_of_lt h1]
  · simp [ne_of_gt h2]
  · have hab : a = b := le_antisymm (le_of_not_lt h2) (le_of_not_lt h1)
    simp [hab]

theorem localeCompare_neg (a b : String) : localeCompare b a = -localeCompare a b := by
  unfold localeCompare
  rcases lt_trichotomy a b with h | h | h
  · simp [h, asymm h]
  · simp [h, lt_irrefl]
  · simp [h, asymm h]

theorem cmpTasks_neg (a b : Task) : cmpTasks b a = -cmpTasks a b := by
  simp only [cmpTasks, bne_iff_ne, ne_eq]
  cases hta : schedTruthy a.scheduledTime <;> cases htb : schedTruthy b.scheduledTime <;>
    simp only [Bool.false_and, Bool.true_and, Bool.and_false, Bool.and_true,
      Bool.not_false, Bool.not_true, Bool.false_eq_true, if_false, if_true] <;>
    split_ifs <;>
    first
      | omega
      | exact localeCompare_neg _ _
      | (exfalso; omega)

theorem taskLE_total (a b : Task) : taskLE a b ∨ taskLE b a := by
  unfold taskLE
  rcases le_or_lt (cmpTasks a b) 0 with h | h
  · exact Or.inl h
  · right
    rw [cmpTasks_neg]
    omega

theorem taskLE_trans (a b c : Task) : taskLE a b → taskLE b c → taskLE a c := by
  unfold taskLE
  simp only [cmpTasks, bne_iff_ne, ne_eq]
  cases hta : schedTruthy a.scheduledTime <;> cases htb : schedTruthy b.scheduledTime <;>
    cases htc : schedTruthy c.scheduledTime <;>
    simp only [Bool.false_and, Bool.true_and, Bool.and_false, Bool.and_true,
      Bool.not_false, Bool.not_true, Bool.false_eq_true, if_false, if_true] <;>
    split_ifs <;>
    intro hab hbc <;>
    first
      | omega
      | exact absurd hab (by omega)
      | exact absurd hbc (by omega)
      | (exfalso; omega)
      | (rw [localeCompare_le_zero_iff] at hab hbc ⊢; exact le_trans hab hbc)

instance : IsTotal Task taskLE := ⟨taskLE_total⟩

instance : IsTrans Task taskLE := ⟨fun a b c => taskLE_trans a b c⟩

/-- two tasks with the same priority and the same `scheduledTime` compare
    equal, hence either may follow the other in a sorted order -/
theorem taskLE_of_same_key (a b : Task) (hp : a.priority = b.priority)
    (hs : a.scheduledTime = b.scheduledTime) : taskLE a b := by
  unfold taskLE
  simp only [cmpTasks, hp, hs, sub_self, bne_self_eq_false, Bool.false_eq_true, if_false]
  have h0 : localeCompare (schedVal b.scheduledTime) (schedVal b.scheduledTime) = 0 :=
    (localeCompare_eq_zero_iff _ _).mpr rfl
  cases h : schedTruthy b.scheduledTime <;> simp [h0]

/-! ### Properties of sorting and projection -/

theorem getVisibleTasks_eq (tasks : List Task) (filter : Option FilterState) :
    getVisibleTasks tasks filter = sortTasks (tasks.filter (passesFilter filter)) := by
  match filter with
  | none =>
    have h : passesFilter (none : Option FilterState) = fun _ => true := rfl
    simp [getVisibleTasks, h, List.filter_true]
  | some f =>
    match hp : f.priority with
    | none =>
      have h : passesFilter (some f) = fun _ => true := by
        funext t
        simp [passesFilter, hp]
      simp [getVisibleTasks, hp, h, List.filter_true]
    | some p =>
      have h : passesFilter (some f) = fun t : Task => decide (t.priority = p) := by
        funext t
        simp [passesFilter, hp]
      simp [getVisibleTasks, hp, h]

theorem sortTasks_perm (l : List Task) : (sortTasks l).Perm l :=
  List.perm_insertionSort taskLE l

theorem sortTasks_pairwise (l : List Task) : (sortTasks l).Pairwise taskLE :=
  List.sorted_insertionSort taskLE l

/-- stability of the sort: the subsequence of elements of any tie class (a
    class whose members all compare equal) appears in its original order -/
theorem sortTasks_filter_stable (l : List Task) (p : Task → Bool)
    (htie : ∀ a b : Task, p a = true → p b = true → taskLE a b) :
    (sortTasks l).filter p = l.filter p := by
  have hpair : (l.filter p).Pairwise taskLE := by
    apply List.pairwise_of_forall_mem_list
    intro a ha b hb
    exact htie a b (List.mem_filter.mp ha).2 (List.mem_filter.mp hb).2
  have hsub : (l.filter p).Sublist (sortTasks l) :=
    List.sublist_insertionSort hpair (List.filter_sublist l)
  have hsub2 : (l.filter p).Sublist ((sortTasks l).filter p) := by
    have : ((l.filter p).filter p).Sublist ((sortTasks l).filter p) :=
      List.Sublist.filter p hsub
    simpa [List.filter_filter, Bool.and_self] using this
  have hlen : ((sortTasks l).filter p).length = (l.filter p).length :=
    (List.Perm.filter p (sortTasks_perm l)).length_eq
  exact (hsub2.eq_of_length hlen.symm).symm

theorem mem_getVisibleTasks {t : Task} {tasks : List Task} {filter : Option FilterState}
    (h : t ∈ getVisibleTasks tasks filter) : t ∈ tasks := by
  rw [getVisibleTasks_eq] at h
  exact (List.mem_filter.mp ((sortTasks_perm _).mem_iff.mp h)).1

/-! ### Whitespace and fuzzy-matching lemmas -/

theorem trimChars_eq_nil_iff (s : List Char) :
    trimChars s = [] ↔ ∀ c ∈ s, c.isWhitespace = true := by
  unfold trimChars
  rw [List.reverse_eq_nil_iff, List.dropWhile_eq_nil_iff]
  constructor
  · intro h c hc
    rcases List.mem_append.mp
        (by simpa [List.takeWhile_append_dropWhile] using hc :
          c ∈ List.takeWhile Char.isWhitespace s ++ List.dropWhile Char.isWhitespace s) with
      h1 | h1
    · exact List.mem_takeWhile_imp h1
    · exact h c (List.mem_reverse.mpr h1)
  · intro h c hc
    exact h c ((List.dropWhile_sublist _).mem (List.mem_reverse.mp hc))

theorem toLower_of_whitespace {c : Char} (h : c.isWhitespace = true) : c.toLower = c := by
  have h' : ((c = ' ' ∨ c = '\t') ∨ c = '\r') ∨ c = '\n' := by
    simpa [Char.isWhitespace] using h
  rcases h' with ((h' | h') | h') | h' <;> subst h' <;> decide

theorem matchesTitleFuzzy_of_trim_nil {q : String} (h : trimChars q.toList = [])
    (title : String) : matchesTitleFuzzy title q = false := by
  have hws : ∀ c ∈ q.toList, c.isWhitespace = true := (trimChars_eq_nil_iff _).mp h
  have hlow : trimChars (lowerChars q.toList) = [] := by
    rw [trimChars_eq_nil_iff]
    intro c hc
    rcases List.mem_map.mp hc with ⟨d, hd, rfl⟩
    rw [toLower_of_whitespace (hws d hd)]
    exact hws d hd
  simp only [String.toList] at hlow
  simp [matchesTitleFuzzy, hlow]

/-! ### `normalizeIndex` lemmas -/

theorem normalizeIndex_lt {rawIndex : Int} {tasks : List Task} {i : Nat}
    (h : normalizeIndex rawIndex tasks = some i) : i < tasks.length := by
  simp only [normalizeIndex] at h
  split_ifs at h with h1 h2 h3 h4 h5 <;> simp only [Option.some.injEq] at h <;> omega

theorem normalizeIndex_succ {j : Nat} {tasks : List Task} (h : j < tasks.length) :
    normalizeIndex ((j : Int) + 1) tasks = some j := by
  simp only [normalizeIndex]
  rw [if_neg (by omega), if_pos (by omega)]
  congr 1
  omega

/-! ### List bridges: indexed map and filter versus `set` and `eraseIdx` -/

theorem mapIdx_ite_eq_set (g : Task → Task) (l : List Task) (idx : Nat) (t : Task)
    (h : l[idx]? = some t) :
    l.mapIdx (fun i x => if i = idx then g x else x) = l.set idx (g t) := by
  have hidx : idx < l.length := by
    by_contra hc
    rw [List.getElem?_eq_none (by omega)] at h
    exact Option.noConfusion h
  apply List.ext_getElem?
  intro n
  rw [List.getElem?_mapIdx, List.getElem?_set]
  by_cases hn : idx = n
  · subst hn
    rw [h, if_pos rfl, if_pos hidx]
    simp
  · rw [if_neg hn]
    rcases hne : l[n]? with _ | x
    · rfl
    · simp [Ne.symm hn]

theorem enumFrom_filter_ne (idx : Nat) :
    ∀ (l : List Task) (n : Nat),
      ((List.enumFrom n l).filter (fun p => !(p.1 = idx))).map Prod.snd
        = if idx < n then l else l.eraseIdx (idx - n) := by
  intro l
  induction l with
  | nil => intro n; simp [List.eraseIdx]
  | cons x xs ih =>
    intro n
    rw [List.enumFrom_cons]
    by_cases hn : n = idx
    · subst hn
      rw [List.filter_cons_of_neg (by simp)]
      rw [ih (n + 1), if_pos (by omega), if_neg (by omega)]
      simp [List.eraseIdx]
    · rw [List.filter_cons_of_pos (by simpa using hn)]
      rw [List.map_cons, ih (n + 1)]
      by_cases hlt : idx < n
      · rw [if_pos (by omega), if_pos hlt]
      · rw [if_neg (by omega), if_neg hlt]
        have hgt : n < idx := by omega
        have : idx - n = (idx - (n + 1)) + 1 := by omega
        rw [this, List.eraseIdx_cons_succ]

theorem enum_filter_ne (l : List Task) (idx : Nat) :
    ((l.enum.filter (fun p => !(p.1 = idx))).map Prod.snd) = l.eraseIdx idx := by
  rw [List.enum_eq_enumFrom, enumFrom_filter_ne idx l 0, if_neg (by omega), Nat.sub_zero]

/-! ### The first-match update loop -/

theorem updateFirstLoop_true (data : IntentData) (q : String) :
    ∀ ts : List Task, updateFirstLoop data q true ts = ts := by
  intro ts
  induction ts with
  | nil => rfl
  | cons t ts ih => simp [updateFirstLoop, ih]

theorem updateFirstLoop_none (data : IntentData) (q : String) :
    ∀ ts : List Task, (∀ t ∈ ts, matchesTitleFuzzy t.title q = false) →
      updateFirstLoop data q false ts = ts := by
  intro ts
  induction ts with
  | nil => intro _; rfl
  | cons t ts ih =>
    intro h
    have ht : matchesTitleFuzzy t.title q = false := h t (by simp)
    simp only [updateFirstLoop, ht, Bool.and_false, Bool.false_eq_true, if_false]
    exact congrArg (t :: ·) (ih fun x hx => h x (by simp [hx]))

theorem updateFirstLoop_found (data : IntentData) (q : String) :
    ∀ (ts : List Task) (i : Nat) (t : Task),
      ts.findIdx (fun t => matchesTitleFuzzy t.title q) = i → i < ts.length →
      ts[i]? = some t →
      updateFirstLoop data q false ts = ts.set i (applyUpdate data t) := by
  intro ts
  induction ts with
  | nil => intro i t _ h; simp at h
  | cons x xs ih =>
    intro i t hfind hlen hget
    rw [List.findIdx_cons] at hfind
    cases hx : matchesTitleFuzzy x.title q with
    | true =>
      rw [hx] at hfind
      simp only [cond_true] at hfind
      subst hfind
      simp only [List.getElem?_cons_zero, Option.some.injEq] at hget
      subst hget
      simp only [updateFirstLoop, hx, Bool.not_false, Bool.true_and, if_true,
        List.set_cons_zero]
      exact congrArg (applyUpdate data x :: ·) (updateFirstLoop_true data q xs)
    | false =>
      rw [hx] at hfind
      simp only [cond_false] at hfind
      match i, hfind with
      | k + 1, _ =>
        have hk : xs.findIdx (fun t => matchesTitleFuzzy t.title q) = k := by omega
        simp only [List.getElem?_cons_succ] at hget
        simp only [updateFirstLoop, hx, Bool.and_false, Bool.false_eq_true, if_neg,
          List.set_cons_succ]
        exact congrArg (x :: ·) (ih k t hk (by simpa using hlen) hget)

/-! ### Branch characterizations of the target dispatchers -/

theorem deleteByTarget_by_index (tasks : List Task) (raw : Int) (mo : Option Mode)
    (mq : Option String) (hmo : mo = some Mode.by_index) :
    deleteByTarget tasks (some ⟨mo, some raw, mq⟩)
      = match normalizeIndex raw tasks with
        | none => tasks
        | some idx => tasks.eraseIdx idx := by
  subst hmo
  simp only [deleteByTarget]
  rw [if_pos (by simp)]
  rcases h : normalizeIndex raw tasks with _ | idx
  · simp
  · simpa using enum_filter_ne tasks idx

theorem updateByTarget_by_index (tasks : List Task) (raw : Int) (mo : Option Mode)
    (mq : Option String) (data : IntentData) (hmo : mo = some Mode.by_index) :
    updateByTarget tasks (some ⟨mo, some raw, mq⟩) data
      = match normalizeIndex raw tasks with
        | none => tasks
        | some idx => tasks.mapIdx (fun i t => if i = idx then applyUpdate data t else t) := by
  subst hmo
  simp only [updateByTarget]
  rw [if_pos (by simp)]

theorem deleteByTarget_by_match (tasks : List Task) (io : Option Int) (q : String)
    (hq : q ≠ "") :
    deleteByTarget tasks (some ⟨some Mode.by_match, io, some q⟩)
      = tasks.filter (fun t => !matchesTitleFuzzy t.title q) := by
  simp only [deleteByTarget]
  rw [if_neg (by simp), if_pos (by simp [schedTruthy, hq])]
  simp only [Option.getD_some]
  by_cases ht : trimChars q.toList = []
  · rw [if_pos ht]
    symm
    rw [List.filter_eq_self]
    intro a _
    simp [matchesTitleFuzzy_of_trim_nil ht]
  · rw [if_neg ht]

theorem updateByTarget_by_match (tasks : List Task) (io : Option Int) (q : String)
    (data : IntentData) (hq : q ≠ "") :
    updateByTarget tasks (some ⟨some Mode.by_match, io, some q⟩) data
      = match tasks.findIdx? (fun t => matchesTitleFuzzy t.title q) with
        | none => tasks
        | some i =>
          match tasks[i]? with
          | some t => tasks.set i (applyUpdate data t)
          | none => tasks := by
  simp only [updateByTarget]
  rw [if_neg (by simp), if_pos (by simp [schedTruthy, hq])]
  simp only [Option.getD_some]
  by_cases ht : trimChars q.toList = []
  · rw [if_pos ht]
    have hnone : tasks.findIdx? (fun t => matchesTitleFuzzy t.title q) = none := by
      rw [List.findIdx?_eq_none_iff]
      intro x _
      exact matchesTitleFuzzy_of_trim_nil ht x.title
    rw [hnone]
  · rw [if_neg ht]
    rcases hf : tasks.findIdx? (fun t => matchesTitleFuzzy t.title q) with _ | i <;>
      rw [hf] <;> dsimp only
    · exact updateFirstLoop_none data q tasks (by
        intro t htm
        have := List.findIdx?_eq_none_iff.mp hf t htm
        simpa using this)
    · have hi := (List.findIdx?_eq_some_iff_findIdx_eq.mp hf).1
      have hfind := (List.findIdx?_eq_some_iff_findIdx_eq.mp hf).2
      rw [List.getElem?_eq_getElem hi]
      exact updateFirstLoop_found data q tasks i _ hfind hi (List.getElem?_eq_getElem hi)

/-- every possible result shape of `updateByTarget`: the store unchanged, or a
    single position overwritten with the merged task -/
theorem updateByTarget_shape (tasks : List Task) (target : Option TargetData)
    (data : IntentData) :
    updateByTarget tasks target data = tasks ∨
      ∃ idx t, tasks[idx]? = some t ∧
        updateByTarget tasks target data = tasks.set idx (applyUpdate data t) := by
  rcases target with _ | ⟨mo, io, mq⟩
  · left; rfl
  · by_cases hbi : mo = some Mode.by_index ∧ io.isSome
    · rcases hbi with ⟨hmo, hio⟩
      rcases Option.isSome_iff_exists.mp hio with ⟨raw, rfl⟩
      rw [updateByTarget_by_index tasks raw mo mq data hmo]
      rcases h : normalizeIndex raw tasks with _ | idx
      · left; rfl
      · right
        have hlt := normalizeIndex_lt h
        refine ⟨idx, tasks.get ⟨idx, hlt⟩, List.getElem?_eq_getElem hlt, ?_⟩
        exact mapIdx_ite_eq_set (applyUpdate data) tasks idx _ (List.getElem?_eq_getElem hlt)
    · by_cases hbm : mo = some Mode.by_match ∧ schedTruthy mq
      · rcases hbm with ⟨hmo, hq⟩
        subst hmo
        rcases mq with _ | q
        · simp [schedTruthy] at hq
        · have hq' : q ≠ "" := by simpa [schedTruthy] using hq
          rw [updateByTarget_by_match tasks io q data hq']
          rcases hf : tasks.findIdx? (fun t => matchesTitleFuzzy t.title q) with _ | i <;>
            rw [hf] <;> dsimp only
          · left; rfl
          · have hi := (List.findIdx?_eq_some_iff_findIdx_eq.mp hf).1
            rw [List.getElem?_eq_getElem hi]
            right
            exact ⟨i, tasks[i], List.getElem?_eq_getElem hi, rfl⟩
      · left
        simp only [updateByTarget]
        rw [if_neg hbi, if_neg hbm]

/-! ### Spec-side ordering relation for the View Projector -/

theorem taskLE_imp_specLE (a b : Task) (ha : a.scheduledTime ≠ some "")
    (hb : b.scheduledTime ≠ some "") (h : taskLE a b) : specLE a b := by
  unfold taskLE at h
  rcases hsa : a.scheduledTime with _ | sa <;> rcases hsb : b.scheduledTime with _ | sb <;>
    simp only [specLE, hsa, hsb]
  · simp [cmpTasks, hsa, hsb, schedTruthy] at h
    split_ifs at h with hp <;>
      first
        | exact absurd h (by omega)
        | exact Or.inl (by omega)
        | exact Or.inr ⟨by omega, trivial⟩
  · have hsb' : sb ≠ "" := fun hc => hb (by rw [hsb, hc])
    simp [cmpTasks, hsa, hsb, schedTruthy, hsb'] at h
    split_ifs at h with hp <;>
      first
        | exact absurd h (by omega)
        | exact Or.inl (by omega)
        | exact Or.inr ⟨by omega, trivial⟩
  · have hsa' : sa ≠ "" := fun hc => ha (by rw [hsa, hc])
    simp [cmpTasks, hsa, hsb, schedTruthy, hsa'] at h
    split_ifs at h with hp <;>
      first
        | exact absurd h (by omega)
        | exact Or.inl (by omega)
        | exact Or.inr ⟨by omega, trivial⟩
  · have hsa' : sa ≠ "" := fun hc => ha (by rw [hsa, hc])
    have hsb' : sb ≠ "" := fun hc => hb (by rw [hsb, hc])
    simp [cmpTasks, hsa, hsb, schedTruthy, schedVal, hsa', hsb'] at h
    split_ifs at h with hp <;>
      first
        | exact absurd h (by omega)
        | exact Or.inl (by omega)
        | exact Or.inr ⟨by omega, trivial⟩
        | exact Or.inr ⟨by omega, (localeCompare_le_zero_iff _ _).mp h⟩

/-- the patch merge never discards a present `scheduledTime` -/
theorem applyUpdate_scheduledTime_isSome (data : IntentData) (t : Task)
    (h : t.scheduledTime.isSome = true) :
    (applyUpdate data t).scheduledTime.isSome = true := by
  simp only [applyUpdate]
  rcases hd : data.scheduledTime with _ | s
  · exact h
  · rfl

/-! ### Claim theorems -/

/-- C2: a `by_index` intent whose 1-based ordinal lies outside the bounds of
    the visible sequence is downgraded by the resolver to `operation = noop`,
    and applying the downgraded intent returns the store unchanged. -/
theorem claim_C2 (op : Operation) (mo : Option Mode) (mq : Option String)
    (dat : IntentData) (tasks : List Task) (filter : Option FilterState)
    (k : Int) (fid : String)
    (hmo : mo = some Mode.by_index)
    (hout : k < 1 ∨ ((getVisibleTasks tasks filter).length : Int) < k) :
    remapIntentForUI ⟨op, some ⟨mo, some k, mq⟩, dat⟩ tasks filter
      = ⟨Operation.noop, some ⟨mo, some k, mq⟩, dat⟩ ∧
    applyIntent fid tasks ⟨Operation.noop, some ⟨mo, some k, mq⟩, dat⟩ = tasks := by
  subst hmo
  refine ⟨?_, rfl⟩
  simp only [remapIntentForUI]
  rw [dif_pos (by omega)]

/-- C7: fuzzy delete is idempotent: applying a `delete by_match` intent twice
    in succession yields the same store as applying it once. -/
theorem claim_C7 (tasks : List Task) (mo : Option Mode) (io : Option Int)
    (mq : Option String) (dat : IntentData) (fid1 fid2 : String)
    (hmo : mo = some Mode.by_match) :
    applyIntent fid2
        (applyIntent fid1 tasks ⟨Operation.delete, some ⟨mo, io, mq⟩, dat⟩)
        ⟨Operation.delete, some ⟨mo, io, mq⟩, dat⟩
      = applyIntent fid1 tasks ⟨Operation.delete, some ⟨mo, io, mq⟩, dat⟩ := by
  subst hmo
  simp only [applyIntent]
  rcases mq with _ | q
  · rfl
  · by_cases hq : q = ""
    · subst hq
      rfl
    · rw [deleteByTarget_by_match tasks io q hq,
        deleteByTarget_by_match _ io q hq, List.filter_filter]
      simp [Bool.and_self]

/-- C8: `create` appends exactly one new task at the end, with the given or
    default field values and a fresh id; every pre-existing task is kept
    unchanged at its position. -/
theorem claim_C8 (tasks : List Task) (tgtOpt : Option TargetData)
    (dat : IntentData) (fid : String)
    (hfresh : ∀ t ∈ tasks, t.id ≠ fid) :
    applyIntent fid tasks ⟨Operation.create, tgtOpt, dat⟩
      = tasks ++ [⟨fid, dat.title.getD "Untitled task", dat.scheduledTime,
          dat.priority.getD Priority.low, dat.status.getD TaskStatus.pending⟩] ∧
    (dat.title = none → dat.title.getD "Untitled task" = "Untitled task") ∧
    (dat.priority = none → dat.priority.getD Priority.low = Priority.low) ∧
    (dat.status = none → dat.status.getD TaskStatus.pending = TaskStatus.pending) ∧
    fid ∉ tasks.map Task.id ∧
    (applyIntent fid tasks ⟨Operation.create, tgtOpt, dat⟩).length = tasks.length + 1 ∧
    (∀ j, j < tasks.length →
      (applyIntent fid tasks ⟨Operation.create, tgtOpt, dat⟩)[j]? = tasks[j]?) := by
  refine ⟨rfl, ?_, ?_, ?_, ?_, ?_, ?_⟩
  · intro h; rw [h]; rfl
  · intro h; rw [h]; rfl
  · intro h; rw [h]; rfl
  · intro hmem
    rcases List.mem_map.mp hmem with ⟨t, ht, hid⟩
    exact hfresh t ht hid
  · show (tasks ++ [_]).length = tasks.length + 1
    simp
  · intro j hj
    show (tasks ++ [_])[j]? = tasks[j]?
    rw [List.getElem?_append, if_pos hj]

/-- C9: every engine function is a total Lean function, hence deterministic
    (two runs on the same input are equal), and every malformed intent shape
    (unknown operation, missing target, null mode, `by_index` without an
    index, `by_match` without a query or with the empty query) degrades to an
    unchanged store; a target-less intent passes the resolver unchanged. -/
theorem claim_C9 :
    (∀ (fid : String) (tasks : List Task) (intent : Intent),
       applyIntent fid tasks intent = applyIntent fid tasks intent) ∧
    (∀ (intent : Intent) (tasks : List Task) (filter : Option FilterState),
       remapIntentForUI intent tasks filter = remapIntentForUI intent tasks filter) ∧
    (∀ (tasks : List Task) (filter : Option FilterState),
       getVisibleTasks tasks filter = getVisibleTasks tasks filter) ∧
    (∀ (raw : Int) (tasks : List Task),
       normalizeIndex raw tasks = normalizeIndex raw tasks) ∧
    (∀ (t q : String), matchesTitleFuzzy t q = matchesTitleFuzzy t q) ∧
    (∀ (fid s : String) (tasks : List Task) (tgtOpt : Option TargetData)
       (dat : IntentData),
       applyIntent fid tasks ⟨Operation.unknown s, tgtOpt, dat⟩ = tasks) ∧
    (∀ (fid : String) (tasks : List Task) (tgtOpt : Option TargetData)
       (dat : IntentData),
       applyIntent fid tasks ⟨Operation.filter, tgtOpt, dat⟩ = tasks ∧
       applyIntent fid tasks ⟨Operation.noop, tgtOpt, dat⟩ = tasks) ∧
    (∀ (fid : String) (tasks : List Task) (dat : IntentData),
       applyIntent fid tasks ⟨Operation.delete, none, dat⟩ = tasks ∧
       applyIntent fid tasks ⟨Operation.update, none, dat⟩ = tasks) ∧
    (∀ (fid : String) (tasks : List Task) (io : Option Int) (mq : Option String)
       (dat : IntentData),
       applyIntent fid tasks ⟨Operation.delete, some ⟨none, io, mq⟩, dat⟩ = tasks ∧
       applyIntent fid tasks ⟨Operation.update, some ⟨none, io, mq⟩, dat⟩ = tasks) ∧
    (∀ (fid : String) (tasks : List Task) (mq : Option String) (dat : IntentData),
       applyIntent fid tasks ⟨Operation.delete, some ⟨some Mode.by_index, none, mq⟩, dat⟩
         = tasks ∧
       applyIntent fid tasks ⟨Operation.update, some ⟨some Mode.by_index, none, mq⟩, dat⟩
         = tasks) ∧
    (∀ (fid : String) (tasks : List Task) (io : Option Int) (dat : IntentData),
       applyIntent fid tasks ⟨Operation.delete, some ⟨some Mode.by_match, io, none⟩, dat⟩
         = tasks ∧
       applyIntent fid tasks ⟨Operation.delete, some ⟨some Mode.by_match, io, some ""⟩, dat⟩
         = tasks ∧
       applyIntent fid tasks ⟨Operation.update, some ⟨some Mode.by_match, io, none⟩, dat⟩
         = tasks ∧
       applyIntent fid tasks ⟨Operation.update, some ⟨some Mode.by_match, io, some ""⟩, dat⟩
         = tasks) ∧
    (∀ (op : Operation) (dat : IntentData) (tasks : List Task)
       (filter : Option FilterState),
       remapIntentForUI ⟨op, none, dat⟩ tasks filter = ⟨op, none, dat⟩) :=
  ⟨fun _ _ _ => rfl, fun _ _ _ => rfl, fun _ _ => rfl, fun _ _ => rfl, fun _ _ => rfl,
   fun _ _ _ _ _ => rfl, fun _ _ _ _ => ⟨rfl, rfl⟩, fun _ _ _ => ⟨rfl, rfl⟩,
   fun _ _ _ _ _ => ⟨rfl, rfl⟩, fun _ _ _ _ => ⟨rfl, rfl⟩,
   fun _ _ _ _ => ⟨rfl, rfl, rfl, rfl⟩, fun _ _ _ _ => rfl⟩

/-- C10: an update can never clear a task's `scheduledTime`: applying any
    update intent preserves the store's length, and any task that had a
    present `scheduledTime` before the update still has one afterwards. -/
theorem claim_C10 (tasks : List Task) (tgtOpt : Option TargetData)
    (dat : IntentData) (fid : String) :
    (applyIntent fid tasks ⟨Operation.update, tgtOpt, dat⟩).length = tasks.length ∧
    ∀ (j : Nat) (t t' : Task), tasks[j]? = some t →
      (applyIntent fid tasks ⟨Operation.update, tgtOpt, dat⟩)[j]? = some t' →
      t.scheduledTime.isSome = true → t'.scheduledTime.isSome = true := by
  simp only [applyIntent]
  rcases updateByTarget_shape tasks tgtOpt dat with h | ⟨idx, u, hu, h⟩
  · rw [h]
    refine ⟨rfl, ?_⟩
    intro j t t' h1 h2 h3
    rw [h1] at h2
    obtain rfl : t = t' := by injection h2
    exact h3
  · rw [h]
    refine ⟨List.length_set tasks idx _, ?_⟩
    intro j t t' h1 h2 h3
    rw [List.getElem?_set] at h2
    by_cases hij : idx = j
    · subst hij
      have hlt : idx < tasks.length := by
        by_contra hc
        rw [List.getElem?_eq_none (by omega)] at h1
        exact Option.noConfusion h1
      rw [if_pos rfl, if_pos hlt] at h2
      obtain rfl : applyUpdate dat u = t' := by injection h2
      have : u = t := by
        rw [hu] at h1
        injection h1
      subst this
      exact applyUpdate_scheduledTime_isSome dat u h3
    · rw [if_neg hij, h1] at h2
      obtain rfl : t = t' := by injection h2
      exact h3

/-- C4: `normalizeIndex` yields the 0-based index `rawIndex - 1` when
    `1 <= rawIndex <= n`; otherwise, when the decimal representation of
    `rawIndex` has more than one character, it yields `firstDigit - 1`
    provided the first character is a digit `d` with `1 <= d <= n`; in all
    remaining cases it yields `none`, and the calling dispatchers perform no
    mutation. -/
theorem claim_C4 (rawIndex : Int) (tasks : List Task) :
    (∀ i : Nat, normalizeIndex rawIndex tasks = some i ↔
       ((1 ≤ rawIndex ∧ rawIndex ≤ (tasks.length : Int)) ∧ (i : Int) = rawIndex - 1) ∨
       (¬(1 ≤ rawIndex ∧ rawIndex ≤ (tasks.length : Int)) ∧
         (toString rawIndex).length > 1 ∧
         ((toString rawIndex).get ⟨0⟩).isDigit = true ∧
         (1 ≤ ((toString rawIndex).get ⟨0⟩).toNat - '0'.toNat ∧
           ((toString rawIndex).get ⟨0⟩).toNat - '0'.toNat ≤ tasks.length) ∧
         i = ((toString rawIndex).get ⟨0⟩).toNat - '0'.toNat - 1)) ∧
    (normalizeIndex rawIndex tasks = none →
       ∀ (mq : Option String) (dat : IntentData),
         deleteByTarget tasks (some ⟨some Mode.by_index, some rawIndex, mq⟩) = tasks ∧
         updateByTarget tasks (some ⟨some Mode.by_index, some rawIndex, mq⟩) dat
           = tasks) := by
  constructor
  · intro i
    simp only [normalizeIndex]
    split_ifs with h0 h1 h2 h3 h4
    · refine iff_of_false (by simp) ?_
      rintro (⟨⟨ha, hb⟩, _⟩ | ⟨_, _, _, ⟨hd1, hd2⟩, _⟩) <;> omega
    · simp only [Option.some.injEq]
      constructor
      · intro hi
        exact Or.inl ⟨h1, by omega⟩
      · rintro (⟨_, hi⟩ | ⟨hc, _⟩)
        · omega
        · exact absurd h1 hc
    · simp only [Option.some.injEq]
      constructor
      · intro hi
        exact Or.inr ⟨h1, h2, h3, h4, by omega⟩
      · rintro (⟨hc, _⟩ | ⟨_, _, _, _, hi⟩)
        · exact absurd hc h1
        · omega
    · refine iff_of_false (by simp) ?_
      rintro (⟨hc, _⟩ | ⟨_, _, _, hd, _⟩)
      · exact h1 hc
      · exact h4 hd
    · refine iff_of_false (by simp) ?_
      rintro (⟨hc, _⟩ | ⟨_, _, hd, _, _⟩)
      · exact h1 hc
      · exact h3 hd
    · refine iff_of_false (by simp) ?_
      rintro (⟨hc, _⟩ | ⟨_, hd, _, _, _⟩)
      · exact h1 hc
      · exact h2 hd
  · intro hnone mq dat
    constructor
    · rw [deleteByTarget_by_index tasks rawIndex _ mq rfl, hnone]
    · rw [updateByTarget_by_index tasks rawIndex _ mq dat rfl, hnone]

/-- C5: an `update by_index` intent with a normalizable index replaces, on the
    one targeted task only, exactly the fields present in `data`, leaving
    absent fields and all other tasks unchanged; a non-normalizable index
    leaves the whole store unchanged. -/
theorem claim_C5 (tasks : List Task) (raw : Int) (mq : Option String)
    (dat : IntentData) (fid : String) :
    (∀ (idx : Nat) (t : Task),
       normalizeIndex raw tasks = some idx → tasks[idx]? = some t →
       applyIntent fid tasks
           ⟨Operation.update, some ⟨some Mode.by_index, some raw, mq⟩, dat⟩
         = tasks.set idx (applyUpdate dat t) ∧
       (dat.title = none → (applyUpdate dat t).title = t.title) ∧
       (dat.scheduledTime = none →
         (applyUpdate dat t).scheduledTime = t.scheduledTime) ∧
       (dat.priority = none → (applyUpdate dat t).priority = t.priority) ∧
       (dat.status = none → (applyUpdate dat t).status = t.status) ∧
       (∀ s, dat.title = some s → (applyUpdate dat t).title = s) ∧
       (∀ s, dat.scheduledTime = some s →
         (applyUpdate dat t).scheduledTime = some s) ∧
       (∀ p, dat.priority = some p → (applyUpdate dat t).priority = p) ∧
       (∀ st, dat.status = some st → (applyUpdate dat t).status = st) ∧
       (∀ j, j ≠ idx → (tasks.set idx (applyUpdate dat t))[j]? = tasks[j]?)) ∧
    (normalizeIndex raw tasks = none →
       applyIntent fid tasks
           ⟨Operation.update, some ⟨some Mode.by_index, some raw, mq⟩, dat⟩
         = tasks) := by
  constructor
  · intro idx t hidx ht
    refine ⟨?_, ?_, ?_, ?_, ?_, ?_, ?_, ?_, ?_, ?_⟩
    · simp only [applyIntent]
      rw [updateByTarget_by_index tasks raw _ mq dat rfl, hidx]
      exact mapIdx_ite_eq_set (applyUpdate dat) tasks idx t ht
    · intro h; simp [applyUpdate, h]
    · intro h; simp [applyUpdate, h]
    · intro h; simp [applyUpdate, h]
    · intro h; simp [applyUpdate, h]
    · intro s h; simp [applyUpdate, h]
    · intro s h; simp [applyUpdate, h]
    · intro p h; simp [applyUpdate, h]
    · intro st h; simp [applyUpdate, h]
    · intro j hj
      rw [List.getElem?_set, if_neg (fun hc => hj hc.symm)]
  · intro hnone
    simp only [applyIntent]
    rw [updateByTarget_by_index tasks raw _ mq dat rfl, hnone]

/-- C6: an `update by_match` intent with a non-empty query applies the
    partial-field update to only the first task in store order whose title
    fuzzily matches; when no task matches, the store is unchanged; every
    position other than the first match keeps its task; and `delete by_match`
    with the same target removes every matching task (the intended
    asymmetry). -/
theorem claim_C6 (tasks : List Task) (q : String) (io : Option Int)
    (dat : IntentData) (fid : String) (hq : q ≠ "") :
    (tasks.findIdx? (fun t => matchesTitleFuzzy t.title q) = none →
       applyIntent fid tasks
           ⟨Operation.update, some ⟨some Mode.by_match, io, some q⟩, dat⟩
         = tasks) ∧
    (∀ (i : Nat) (t : Task),
       tasks.findIdx? (fun t => matchesTitleFuzzy t.title q) = some i →
       tasks[i]? = some t →
       applyIntent fid tasks
           ⟨Operation.update, some ⟨some Mode.by_match, io, some q⟩, dat⟩
         = tasks.set i (applyUpdate dat t) ∧
       (∀ j, j ≠ i → (tasks.set i (applyUpdate dat t))[j]? = tasks[j]?)) ∧
    (applyIntent fid tasks
        ⟨Operation.delete, some ⟨some Mode.by_match, io, some q⟩, dat⟩
      = tasks.filter (fun t => !matchesTitleFuzzy t.title q)) := by
  refine ⟨?_, ?_, ?_⟩
  · intro hnone
    simp only [applyIntent]
    rw [updateByTarget_by_match tasks io q dat hq, hnone]
  · intro i t hi ht
    constructor
    · simp only [applyIntent]
      rw [updateByTarget_by_match tasks io q dat hq, hi]
      dsimp only
      rw [ht]
    · intro j hj
      rw [List.getElem?_set, if_neg (fun hc => hj hc.symm)]
  · simp only [applyIntent]
    exact deleteByTarget_by_match tasks io q hq

/-- C3: the View Projector returns exactly the tasks passing the priority
    filter, sorted by the spec's ordering (priority in the fixed order
    high < medium < low; within equal priority, scheduled before unscheduled,
    scheduled ordered lexicographically by the ISO string), and the tasks of
    any tie class — identical priority and identical `scheduledTime`, in
    particular both unscheduled — keep their relative store order.  The
    hypothesis reflects the data model: a present `scheduledTime` is an ISO
    timestamp, never the empty string. -/
theorem claim_C3 (tasks : List Task) (filter : Option FilterState)
    (hWF : ∀ t ∈ tasks, t.scheduledTime ≠ some "") :
    (getVisibleTasks tasks filter).Perm (tasks.filter (passesFilter filter)) ∧
    (getVisibleTasks tasks filter).Pairwise specLE ∧
    ∀ (p : Priority) (st : Option String),
      (getVisibleTasks tasks filter).filter
          (fun t => decide (t.priority = p ∧ t.scheduledTime = st))
        = (tasks.filter (passesFilter filter)).filter
          (fun t => decide (t.priority = p ∧ t.scheduledTime = st)) := by
  rw [getVisibleTasks_eq]
  refine ⟨sortTasks_perm _, ?_, ?_⟩
  · refine List.Pairwise.imp_of_mem ?_ (sortTasks_pairwise _)
    intro a b ha hb hle
    have ha' : a ∈ tasks := (List.mem_filter.mp ((sortTasks_perm _).mem_iff.mp ha)).1
    have hb' : b ∈ tasks := (List.mem_filter.mp ((sortTasks_perm _).mem_iff.mp hb)).1
    exact taskLE_imp_specLE a b (hWF a ha') (hWF b hb') hle
  · intro p st
    apply sortTasks_filter_stable
    intro a b hpa hpb
    have hA := of_decide_eq_true hpa
    have hB := of_decide_eq_true hpb
    exact taskLE_of_same_key a b (hA.1.trans hB.1.symm) (hA.2.trans hB.2.symm)

/-- C1: for a `by_index` intent whose 1-based ordinal `k` selects the task
    `v` shown at visible row `k`, the resolver rewrites `target.index` to the
    1-based position of `v`'s id in the unfiltered, unsorted store (the
    position `j` found by id, which under unique ids holds `v` itself), and
    applying the resolved intent deletes exactly position `j` (for `delete`)
    or updates exactly position `j` with the merged task (for `update`) — not
    the store's literal `k`-th element. -/
theorem claim_C1 (op : Operation) (mo : Option Mode) (mq : Option String)
    (dat : IntentData) (tasks : List Task) (filter : Option FilterState)
    (k : Int) (v : Task) (j : Nat) (fid : String)
    (hmo : mo = some Mode.by_index)
    (hk : 1 ≤ k)
    (hvis : (getVisibleTasks tasks filter)[(k - 1).toNat]? = some v)
    (hfind : tasks.findIdx? (fun t => t.id = v.id) = some j)
    (hnodup : (tasks.map Task.id).Nodup) :
    tasks[j]? = some v ∧
    remapIntentForUI ⟨op, some ⟨mo, some k, mq⟩, dat⟩ tasks filter
      = ⟨op, some ⟨mo, some ((j : Int) + 1), mq⟩, dat⟩ ∧
    applyIntent fid tasks
        ⟨Operation.delete, some ⟨mo, some ((j : Int) + 1), mq⟩, dat⟩
      = tasks.eraseIdx j ∧
    applyIntent fid tasks
        ⟨Operation.update, some ⟨mo, some ((j : Int) + 1), mq⟩, dat⟩
      = tasks.set j (applyUpdate dat v) := by
  subst hmo
  obtain ⟨hlt, hv⟩ := List.getElem?_eq_some_iff.mp hvis
  have hjlt : j < tasks.length := (List.findIdx?_eq_some_iff_findIdx_eq.mp hfind).1
  have hjeq : tasks.findIdx (fun t => decide (t.id = v.id)) = j :=
    (List.findIdx?_eq_some_iff_findIdx_eq.mp hfind).2
  subst hjeq
  have hid : tasks[tasks.findIdx (fun t => decide (t.id = v.id))].id = v.id :=
    of_decide_eq_true
      (@List.findIdx_getElem _ (fun t => decide (t.id = v.id)) tasks hjlt)
  have hvmem : v ∈ tasks := mem_getVisibleTasks (hv ▸ List.getElem_mem hlt)
  have hjv : tasks[tasks.findIdx (fun t => decide (t.id = v.id))] = v :=
    List.inj_on_of_nodup_map hnodup (List.getElem_mem hjlt) hvmem hid
  have hjv' : tasks[tasks.findIdx (fun t => decide (t.id = v.id))]? = some v := by
    rw [List.getElem?_eq_getElem hjlt]
    exact congrArg some hjv
  have hv2 : ∀ h2 : (k - 1).toNat < (getVisibleTasks tasks filter).length,
      (getVisibleTasks tasks filter).get ⟨(k - 1).toNat, h2⟩ = v := by
    intro h2
    rw [List.get_eq_getElem]
    exact hv
  refine ⟨hjv', ?_, ?_, ?_⟩
  · simp only [remapIntentForUI]
    rw [dif_neg (show ¬((k - 1 : Int) < 0 ∨
        ((getVisibleTasks tasks filter).length : Int) ≤ k - 1) by omega)]
    rw [hv2, hfind]
  · simp only [applyIntent]
    rw [deleteByTarget_by_index tasks _ _ mq rfl, normalizeIndex_succ hjlt]
  · simp only [applyIntent]
    rw [updateByTarget_by_index tasks _ _ mq dat rfl, normalizeIndex_succ hjlt]
    exact mapIdx_ite_eq_set (applyUpdate dat) tasks _ v hjv'

/-! ### Witnesses: the claim theorems applied at concrete inputs -/

/-- witness for C1 on the spec's divergence scenario: visible row 2 is task
    `c` (medium), stored at position 3, not the store's second element `b` -/
theorem claim_C1_witness :
    divergenceStore[2]? = some ⟨"c", "Task C", none, Priority.medium, TaskStatus.pending⟩ ∧
    remapIntentForUI
        ⟨Operation.update, some ⟨some Mode.by_index, some 2, none⟩,
          ⟨none, none, some Priority.high, none⟩⟩ divergenceStore none
      = ⟨Operation.update, some ⟨some Mode.by_index, some (((2 : Nat) : Int) + 1), none⟩,
          ⟨none, none, some Priority.high, none⟩⟩ ∧
    applyIntent "w" divergenceStore
        ⟨Operation.delete, some ⟨some Mode.by_index, some (((2 : Nat) : Int) + 1), none⟩,
          ⟨none, none, some Priority.high, none⟩⟩
      = divergenceStore.eraseIdx 2 ∧
    applyIntent "w" divergenceStore
        ⟨Operation.update, some ⟨some Mode.by_index, some (((2 : Nat) : Int) + 1), none⟩,
          ⟨none, none, some Priority.high, none⟩⟩
      = divergenceStore.set 2
          (applyUpdate ⟨none, none, some Priority.high, none⟩
            ⟨"c", "Task C", none, Priority.medium, TaskStatus.pending⟩) :=
  claim_C1 Operation.update (some Mode.by_index) none
    ⟨none, none, some Priority.high, none⟩ divergenceStore none 2
    ⟨"c", "Task C", none, Priority.medium, TaskStatus.pending⟩ 2 "w"
    rfl (by decide) (by decide) (by decide) (by decide)

/-- witness for C2: `delete by_index=5` on the three seeded tasks resolves to
    `noop` and leaves the store unchanged -/
theorem claim_C2_witness :
    remapIntentForUI
        ⟨Operation.delete, some ⟨some Mode.by_index, some 5, none⟩,
          ⟨none, none, none, none⟩⟩ seededTasks none
      = ⟨Operation.noop, some ⟨some Mode.by_index, some 5, none⟩,
          ⟨none, none, none, none⟩⟩ ∧
    applyIntent "w" seededTasks
        ⟨Operation.noop, some ⟨some Mode.by_index, some 5, none⟩,
          ⟨none, none, none, none⟩⟩ = seededTasks :=
  claim_C2 Operation.delete (some Mode.by_index) none ⟨none, none, none, none⟩
    seededTasks none 5 "w" rfl (by decide)

/-- witness for C3 on the divergence scenario, with the stability equation
    instantiated at the tie class of unscheduled medium-priority tasks -/
theorem claim_C3_witness :
    (getVisibleTasks divergenceStore none).Perm
      (divergenceStore.filter (passesFilter none)) ∧
    (getVisibleTasks divergenceStore none).Pairwise specLE ∧
    (getVisibleTasks divergenceStore none).filter
        (fun t => decide (t.priority = Priority.medium ∧ t.scheduledTime = none))
      = (divergenceStore.filter (passesFilter none)).filter
        (fun t => decide (t.priority = Priority.medium ∧ t.scheduledTime = none)) :=
  ⟨(claim_C3 divergenceStore none (by decide)).1,
   (claim_C3 divergenceStore none (by decide)).2.1,
   (claim_C3 divergenceStore none (by decide)).2.2 Priority.medium none⟩

/-- witness for C4: the multi-digit raw index 12 resolves to the first row via
    its first digit, and the unresolvable raw index -3 causes no mutation -/
theorem claim_C4_witness :
    normalizeIndex 12 seededTasks = some 0 ∧
    deleteByTarget seededTasks (some ⟨some Mode.by_index, some (-3), none⟩)
      = seededTasks ∧
    updateByTarget seededTasks (some ⟨some Mode.by_index, some (-3), none⟩)
      ⟨none, none, none, none⟩ = seededTasks :=
  ⟨((claim_C4 12 seededTasks).1 0).mpr
      (Or.inr ⟨by decide, by decide, by decide, ⟨by decide, by decide⟩, by decide⟩),
   ((claim_C4 (-3) seededTasks).2 (by decide) none ⟨none, none, none, none⟩).1,
   ((claim_C4 (-3) seededTasks).2 (by decide) none ⟨none, none, none, none⟩).2⟩

/-- witness for C5: `update by_index=1, data = priority high` on a scheduled
    task changes only the priority on the targeted task -/
theorem claim_C5_witness :
    applyIntent "w" seededTasks
        ⟨Operation.update, some ⟨some Mode.by_index, some 1, none⟩,
          ⟨none, none, some Priority.high, none⟩⟩
      = seededTasks.set 0
          (applyUpdate ⟨none, none, some Priority.high, none⟩
            ⟨"1", "Fix payment gateway bug", some "2025-11-16T10:00:00Z",
              Priority.high, TaskStatus.pending⟩) ∧
    (applyUpdate ⟨none, none, some Priority.high, none⟩
        ⟨"1", "Fix payment gateway bug", some "2025-11-16T10:00:00Z",
          Priority.high, TaskStatus.pending⟩).title = "Fix payment gateway bug" ∧
    (applyUpdate ⟨none, none, some Priority.high, none⟩
        ⟨"1", "Fix payment gateway bug", some "2025-11-16T10:00:00Z",
          Priority.high, TaskStatus.pending⟩).scheduledTime
      = some "2025-11-16T10:00:00Z" ∧
    (applyUpdate ⟨none, none, some Priority.high, none⟩
        ⟨"1", "Fix payment gateway bug", some "2025-11-16T10:00:00Z",
          Priority.high, TaskStatus.pending⟩).priority = Priority.high ∧
    applyIntent "w" seededTasks
        ⟨Operation.update, some ⟨some Mode.by_index, some 99, none⟩,
          ⟨none, none, some Priority.high, none⟩⟩ = seededTasks :=
  ⟨((claim_C5 seededTasks 1 none ⟨none, none, some Priority.high, none⟩ "w").1 0
      ⟨"1", "Fix payment gateway bug", some "2025-11-16T10:00:00Z",
        Priority.high, TaskStatus.pending⟩ (by decide) (by decide)).1,
   ((claim_C5 seededTasks 1 none ⟨none, none, some Priority.high, none⟩ "w").1 0
      ⟨"1", "Fix payment gateway bug", some "2025-11-16T10:00:00Z",
        Priority.high, TaskStatus.pending⟩ (by decide) (by decide)).2.1 rfl,
   ((claim_C5 seededTasks 1 none ⟨none, none, some Priority.high, none⟩ "w").1 0
      ⟨"1", "Fix payment gateway bug", some "2025-11-16T10:00:00Z",
        Priority.high, TaskStatus.pending⟩ (by decide) (by decide)).2.2.1 rfl,
   ((claim_C5 seededTasks 1 none ⟨none, none, some Priority.high, none⟩ "w").1 0
      ⟨"1", "Fix payment gateway bug", some "2025-11-16T10:00:00Z",
        Priority.high, TaskStatus.pending⟩ (by decide) (by decide)).2.2.2.2.2.2.2.1
      Priority.high rfl,
   (claim_C5 seededTasks 99 none ⟨none, none, some Priority.high, none⟩ "w").2
      (by decide)⟩

/-- witness for C6: `update by_match "payment"` patches only the first seeded
    task; `delete by_match "payment"` removes every match -/
theorem claim_C6_witness :
    applyIntent "w" seededTasks
        ⟨Operation.update, some ⟨some Mode.by_match, none, some "payment"⟩,
          ⟨none, none, none, some TaskStatus.done⟩⟩
      = seededTasks.set 0
          (applyUpdate ⟨none, none, none, some TaskStatus.done⟩
            ⟨"1", "Fix payment gateway bug", some "2025-11-16T10:00:00Z",
              Priority.high, TaskStatus.pending⟩) ∧
    applyIntent "w" seededTasks
        ⟨Operation.delete, some ⟨some Mode.by_match, none, some "payment"⟩,
          ⟨none, none, none, some TaskStatus.done⟩⟩
      = seededTasks.filter (fun t => !matchesTitleFuzzy t.title "payment") :=
  ⟨((claim_C6 seededTasks "payment" none ⟨none, none, none, some TaskStatus.done⟩ "w"
      (by decide)).2.1 0
      ⟨"1", "Fix payment gateway bug", some "2025-11-16T10:00:00Z",
        Priority.high, TaskStatus.pending⟩ (by decide) (by decide)).1,
   (claim_C6 seededTasks "payment" none ⟨none, none, none, some TaskStatus.done⟩ "w"
      (by decide)).2.2⟩

/-- witness for C7: deleting by the query "payment" twice equals deleting once -/
theorem claim_C7_witness :
    applyIntent "y"
        (applyIntent "x" seededTasks
          ⟨Operation.delete, some ⟨some Mode.by_match, none, some "payment"⟩,
            ⟨none, none, none, none⟩⟩)
        ⟨Operation.delete, some ⟨some Mode.by_match, none, some "payment"⟩,
          ⟨none, none, none, none⟩⟩
      = applyIntent "x" seededTasks
          ⟨Operation.delete, some ⟨some Mode.by_match, none, some "payment"⟩,
            ⟨none, none, none, none⟩⟩ :=
  claim_C7 seededTasks (some Mode.by_match) none (some "payment")
    ⟨none, none, none, none⟩ "x" "y" rfl

/-- witness for C8: creating "Buy milk" with no other fields appends a task
    with the default priority, status and no schedule, under a fresh id -/
theorem claim_C8_witness :
    applyIntent "fresh-id" seededTasks
        ⟨Operation.create, none, ⟨some "Buy milk", none, none, none⟩⟩
      = seededTasks
          ++ [⟨"fresh-id", "Buy milk", none, Priority.low, TaskStatus.pending⟩] ∧
    "fresh-id" ∉ seededTasks.map Task.id :=
  ⟨(claim_C8 seededTasks none ⟨some "Buy milk", none, none, none⟩ "fresh-id"
      (by decide)).1,
   (claim_C8 seededTasks none ⟨some "Buy milk", none, none, none⟩ "fresh-id"
      (by decide)).2.2.2.2.1⟩

/-- witness for C10: retitling task 1 keeps its `scheduledTime` present -/
theorem claim_C10_witness :
    (applyIntent "w" seededTasks
        ⟨Operation.update, some ⟨some Mode.by_index, some 1, none⟩,
          ⟨some "New title", none, none, none⟩⟩).length = seededTasks.length ∧
    (⟨"1", "New title", some "2025-11-16T10:00:00Z", Priority.high,
        TaskStatus.pending⟩ : Task).scheduledTime.isSome = true :=
  ⟨(claim_C10 seededTasks (some ⟨some Mode.by_index, some 1, none⟩)
      ⟨some "New title", none, none, none⟩ "w").1,
   (claim_C10 seededTasks (some ⟨some Mode.by_index, some 1, none⟩)
      ⟨some "New title", none, none, none⟩ "w").2 0
      ⟨"1", "Fix payment gateway bug", some "2025-11-16T10:00:00Z",
        Priority.high, TaskStatus.pending⟩
      ⟨"1", "New title", some "2025-11-16T10:00:00Z", Priority.high,
        TaskStatus.pending⟩
      (by decide) (by decide) (by decide)⟩

end AdiVoiceTodo
